import Mathlib

/-!
Verification of the extract-transform core of an ETL pipeline for e-commerce
orders.  The Lean definitions below are a shallow embedding of the Python
sources: `src/transform/transform.py` (deduplication, customer identifier,
guest flag, metadata simplification) and `src/extract/extract.py`
(paginated fetching with retry/backoff, checkpoint persistence).
-/

/-! ## Record normalizer: deduplication (transform.py lines 21 to 28)

A raw order row, reduced to the fields the deduplication step inspects.
`date_modified` is the value after `pd.to_datetime(..., errors="coerce")`:
`none` stands for `NaT` (an unparsable or missing date).  `payload` stands
for all remaining fields of the row, so that two versions of the same order
can be told apart. -/
structure RawOrder where
  id : Int
  date_modified : Option Int
  payload : Nat
deriving DecidableEq, Repr

/-- Sort key for `date_modified`: `NaT` sorts below every real date, which
matches the pandas default `na_position="last"` for a descending sort. -/
def dKey : Option Int → WithBot Int
  | none => ⊥
  | some d => (d : WithBot Int)

/-- `orderBefore a b` holds when row `a` may appear before row `b` under
`sort_values(by=["id", "date_modified"], ascending=[True, False])`:
primary key `id` ascending, secondary key `date_modified` descending with
missing dates last. -/
def orderBefore (a b : RawOrder) : Prop :=
  a.id < b.id ∨ (a.id = b.id ∧ dKey b.date_modified ≤ dKey a.date_modified)

instance : DecidableRel orderBefore := fun a b => by
  unfold orderBefore; infer_instance

instance : IsTotal RawOrder orderBefore := by
  constructor
  intro a b
  rcases lt_trichotomy a.id b.id with h | h | h
  · exact Or.inl (Or.inl h)
  · rcases le_total (dKey b.date_modified) (dKey a.date_modified) with hd | hd
    · exact Or.inl (Or.inr ⟨h, hd⟩)
    · exact Or.inr (Or.inr ⟨h.symm, hd⟩)
  · exact Or.inr (Or.inl h)

instance : IsTrans RawOrder orderBefore := by
  constructor
  intro a b c hab hbc
  rcases hab with hab | ⟨hab, hab2⟩
  · rcases hbc with hbc | ⟨hbc, _⟩
    · exact Or.inl (hab.trans hbc)
    · exact Or.inl (hbc ▸ hab)
  · rcases hbc with hbc | ⟨hbc, hbc2⟩
    · exact Or.inl (hab ▸ hbc)
    · exact Or.inr ⟨hab.trans hbc, hbc2.trans hab2⟩

/-- The sort on line 25 of transform.py. -/
def sortOrders (l : List RawOrder) : List RawOrder :=
  l.insertionSort orderBefore

/-- `drop_duplicates(subset="id", keep="first")` (transform.py line 28):
keep the first occurrence of every `id`, in list order. -/
def dedupKeepFirst : List RawOrder → List RawOrder
  | [] => []
  | r :: rs => r :: dedupKeepFirst (rs.filter (fun s => s.id != r.id))
termination_by l => l.length
decreasing_by
  simp only [List.length_cons]
  exact Nat.lt_succ_of_le (List.length_filter_le _ _)

/-- The deduplication stage of `transform.main`: sort by
`(id ascending, date_modified descending)`, then keep the first row
per `id`. -/
def normalize_dedup (raws : List RawOrder) : List RawOrder :=
  dedupKeepFirst (sortOrders raws)

/-! ## Guest flag (transform.py line 44) -/

/-- `deduplicated_data["customer_id"].fillna(0).astype(int) == 0`:
a missing `customer_id` is replaced by `0`, then compared with `0`. -/
def is_guest (customer_id : Option Int) : Bool :=
  (customer_id.getD 0) == 0

/-! ## Metadata simplification (transform.py lines 145 to 181) -/

/-- One element of the `meta_data` list.  `notDict` stands for an element
that is not a dict (skipped by the code); an `entry` carries the results
of `item.get("key")` and `item.get("value")`, where `none` is Python
`None` (a missing key).  Values are modelled as the strings the
attribution plugin stores. -/
inductive MetaItem where
  | notDict
  | entry (key : Option String) (val : Option String)
deriving DecidableEq, Repr

/-- The `meta_data` column value: either not a list at all (for example
`NaN` for a missing column) or a list of items. -/
inductive MetaValue where
  | notList
  | items (l : List MetaItem)
deriving DecidableEq, Repr

/-- The dict built by `simplify_metadata`. -/
structure MetaResult where
  device_type : String
  attribution_source : Option String
  campaign_source : Option String
  campaign_medium : Option String
  referrer_url : Option String
deriving DecidableEq, Repr

/-- The initial `result` dict of `simplify_metadata`. -/
def metaDefault : MetaResult :=
  ⟨"Unknown", none, none, none, none⟩

/-- Python truthiness of a metadata value in this model: present and not
the empty string. -/
def truthy : Option String → Bool
  | none => false
  | some s => !(s == "")

def dtKeyName : String := "_wc_order_attribution_device_type"
def stKeyName : String := "_wc_order_attribution_source_type"
def usKeyName : String := "_wc_order_attribution_utm_source"
def umKeyName : String := "_wc_order_attribution_utm_medium"
def refKeyName : String := "_wc_order_attribution_referrer"
def srefKeyName : String := "_wc_order_attribution_session_referrer"

/-- The body of the `for item in metadata_list` loop: the if/elif chain of
transform.py lines 157 to 179, acting on the accumulated `result`.
Note that only the two referrer branches test `not result["referrer_url"]`;
the other four branches overwrite unconditionally. -/
def metaStep (acc : MetaResult) : MetaItem → MetaResult
  | .notDict => acc
  | .entry k v =>
    if k == some dtKeyName && truthy v then
      { acc with device_type := v.getD "" }
    else if k == some stKeyName && truthy v then
      { acc with attribution_source := v }
    else if k == some usKeyName && truthy v then
      { acc with campaign_source := v }
    else if k == some umKeyName && truthy v then
      { acc with campaign_medium := v }
    else if k == some refKeyName && truthy v && acc.referrer_url == none then
      { acc with referrer_url := v }
    else if k == some srefKeyName && truthy v && acc.referrer_url == none then
      { acc with referrer_url := v }
    else acc

/-- `simplify_metadata` (transform.py lines 145 to 181). -/
def simplify_metadata : MetaValue → MetaResult
  | .notList => metaDefault
  | .items l => l.foldl metaStep metaDefault

/-! ## Paginated fetcher (extract.py lines 70 to 118)

The network is modelled as a finite script of per-request outcomes, consumed
one element per `requests.get` call.  Record payloads are modelled as `Nat`
tags. -/

/-- Outcome of one `requests.get` call, as the code can observe it:
a 2xx response whose body parses to a JSON list (`ok`), a 2xx response
whose body does not parse (`malformed`, so `result.json()` raises), a
network error or non-2xx status (`httpError`, so `requests.get` or
`raise_for_status` raises `RequestException`), or an HTTP 429 carrying a
Retry-After hint (`rateLimited`, also raised by `raise_for_status` as a
`RequestException`; the code never reads the hint). -/
inductive AttemptOutcome where
  | ok (body : List Nat)
  | malformed
  | httpError
  | rateLimited (retryAfter : Nat)
deriving DecidableEq, Repr

/-- How a run of `request_data` ended: a normal `return all_data`
(`returned`), an uncaught exception escaping the function (`raised`), or
the model ran out of scripted responses (`outOfScript`, a model artifact:
the script was too short to determine the behavior). -/
inductive FetchStatus where
  | returned
  | raised
  | outOfScript
deriving DecidableEq, Repr

/-- Observable result of `request_data`: final status, the returned list
(empty unless `status = returned`, since a raised exception discards the
accumulator), the arguments of the `time.sleep` calls in order, and the
page number of every `requests.get` call in order. -/
structure FetchResult where
  status : FetchStatus
  records : List Nat
  sleeps : List Nat
  requests : List Nat
deriving DecidableEq, Repr

/-- `max_retries = 5` (extract.py line 81). -/
def max_retries : Nat := 5

/-- The `while True` loop of `request_data` (extract.py lines 84 to 117).
State: remaining script, `page`, `all_data`, `current_retry`, and the
sleep and request logs.  Each iteration sleeps `2 ** current_retry` when
`current_retry > 0`, then issues one GET.  A `RequestException` increments
the retry counter while `current_retry < max_retries` and otherwise breaks
with the accumulated data; a successful GET resets the counter, after
which `result.json()` is called outside the try block, so a malformed
body raises out of the function. -/
def runFetch : List AttemptOutcome → Nat → List Nat → Nat → List Nat → List Nat → FetchResult
  | [], _, _, _, sleeps, reqs => ⟨.outOfScript, [], sleeps, reqs⟩
  | o :: rest, page, acc, retry, sleeps, reqs =>
    let sleeps2 := if 0 < retry then sleeps ++ [2 ^ retry] else sleeps
    let reqs2 := reqs ++ [page]
    match o with
    | .ok body =>
      if body.isEmpty then ⟨.returned, acc, sleeps2, reqs2⟩
      else runFetch rest (page + 1) (acc ++ body) 0 sleeps2 reqs2
    | .malformed => ⟨.raised, [], sleeps2, reqs2⟩
    | .httpError =>
      if retry < max_retries then runFetch rest page acc (retry + 1) sleeps2 reqs2
      else ⟨.returned, acc, sleeps2, reqs2⟩
    | .rateLimited _ =>
      if retry < max_retries then runFetch rest page acc (retry + 1) sleeps2 reqs2
      else ⟨.returned, acc, sleeps2, reqs2⟩

/-- `request_data` (extract.py lines 70 to 118), run against a response
script: starts at page 1 with an empty accumulator and a zero retry
counter. -/
def request_data (script : List AttemptOutcome) : FetchResult :=
  runFetch script 1 [] 0 [] []

/-! ## Checkpoint persistence (extract.py lines 17 to 67) -/

/-- The clock as `datetime.now()` sees it: `datetime.now()` returns naive
local time, the sum of the UTC instant and the timezone offset of the
machine (all in minutes in this model). -/
structure Clock where
  utcNow : Int
  tzOffset : Int
deriving DecidableEq, Repr

/-- `datetime.now()`: naive local time. -/
def datetime_now (c : Clock) : Int := c.utcNow + c.tzOffset

/-- Observable outcome of `extract.main`: the collected raw data, the
content of the checkpoint file after the run (`none` = file absent), and
whether an exception escaped. -/
structure ExtractResult where
  all_raw_data : List Nat
  checkpoint_file : Option Int
  raised : Bool
deriving DecidableEq, Repr

/-- `extract.main` (extract.py lines 17 to 52) for the single live
endpoint `"orders"`: fetch, and when any data came in, overwrite the
checkpoint file with `datetime.now() - timedelta(minutes=2)` (line 48);
otherwise leave the file untouched.  An exception escaping `request_data`
escapes `main` before the save, leaving the file untouched.  `none` is
returned when the model script was too short. -/
def extract_main (c : Clock) (script : List AttemptOutcome) (file : Option Int) :
    Option ExtractResult :=
  let f := request_data script
  match f.status with
  | .outOfScript => none
  | .raised => some ⟨[], file, true⟩
  | .returned =>
    if f.records.isEmpty then some ⟨[], file, false⟩
    else some ⟨f.records, some (datetime_now c - 2), false⟩

/-! ## Customer identifier (transform.py lines 93 to 106)

`create_customer_identifier` hashes guest emails with
`hashlib.sha256(... .encode("utf-8")).hexdigest()`.  SHA-256 is embedded
below as a pure function on byte lists (FIPS 180-4), with 32-bit words
as `Nat` reduced modulo `2 ^ 32`. -/

/-- Truncation to a 32-bit word. -/
def w32 (x : Nat) : Nat := x % 4294967296

/-- Right rotation of a 32-bit word. -/
def rotr32 (n x : Nat) : Nat := w32 ((x >>> n) ||| (x <<< (32 - n)))

def shaCh (x y z : Nat) : Nat := (x &&& y) ^^^ ((x ^^^ 4294967295) &&& z)

def shaMaj (x y z : Nat) : Nat := (x &&& y) ^^^ (x &&& z) ^^^ (y &&& z)

def bsig0 (x : Nat) : Nat := rotr32 2 x ^^^ rotr32 13 x ^^^ rotr32 22 x

def bsig1 (x : Nat) : Nat := rotr32 6 x ^^^ rotr32 11 x ^^^ rotr32 25 x

def ssig0 (x : Nat) : Nat := rotr32 7 x ^^^ rotr32 18 x ^^^ (x >>> 3)

def ssig1 (x : Nat) : Nat := rotr32 17 x ^^^ rotr32 19 x ^^^ (x >>> 10)

/-- The 64 SHA-256 round constants, written in decimal. -/
def shaK : List Nat := [
  1116352408, 1899447441, 3049323471, 3921009573, 961987163, 1508970993,
  2453635748, 2870763221, 3624381080, 310598401, 607225278, 1426881987,
  1925078388, 2162078206, 2614888103, 3248222580, 3835390401, 4022224774,
  264347078, 604807628, 770255983, 1249150122, 1555081692, 1996064986,
  2554220882, 2821834349, 2952996808, 3210313671, 3336571891, 3584528711,
  113926993, 338241895, 666307205, 773529912, 1294757372, 1396182291,
  1695183700, 1986661051, 2177026350, 2456956037, 2730485921, 2820302411,
  3259730800, 3345764771, 3516065817, 3600352804, 4094571909, 275423344,
  430227734, 506948616, 659060556, 883997877, 958139571, 1322822218,
  1537002063, 1747873779, 1955562222, 2024104815, 2227730452, 2361852424,
  2428436474, 2756734187, 3204031479, 3329325298]

/-- The eight working variables of the compression function. -/
structure ShaState where
  a : Nat
  b : Nat
  c : Nat
  d : Nat
  e : Nat
  f : Nat
  g : Nat
  h : Nat
deriving DecidableEq, Repr

/-- The SHA-256 initial hash value, written in decimal. -/
def shaInit : ShaState :=
  ⟨1779033703, 3144134277, 1013904242, 2773480762, 1359893119, 2600822924, 528734635, 1541459225⟩

/-- One round of the SHA-256 compression function. -/
def shaRound (s : ShaState) (kt wt : Nat) : ShaState :=
  let t1 := w32 (s.h + bsig1 s.e + shaCh s.e s.f s.g + kt + wt)
  let t2 := w32 (bsig0 s.a + shaMaj s.a s.b s.c)
  ⟨w32 (t1 + t2), s.a, s.b, s.c, w32 (s.d + t1), s.e, s.f, s.g⟩

/-- Extend the 16 message words of a chunk to the 64-entry message
schedule. -/
def extendW (w : List Nat) : List Nat :=
  (List.range 48).foldl
    (fun w _ =>
      let t := w.length
      w ++ [w32 (w.getD (t - 16) 0 + ssig0 (w.getD (t - 15) 0) +
        w.getD (t - 7) 0 + ssig1 (w.getD (t - 2) 0))])
    w

/-- Process one 64-byte chunk (already split into 16 words). -/
def processChunk (h0 : ShaState) (words : List Nat) : ShaState :=
  let w := extendW words
  let s := (List.range 64).foldl (fun s t => shaRound s (shaK.getD t 0) (w.getD t 0)) h0
  ⟨w32 (h0.a + s.a), w32 (h0.b + s.b), w32 (h0.c + s.c), w32 (h0.d + s.d),
   w32 (h0.e + s.e), w32 (h0.f + s.f), w32 (h0.g + s.g), w32 (h0.h + s.h)⟩

/-- Big-endian byte list of width `n` for value `v`. -/
def beBytes (n v : Nat) : List Nat :=
  (List.range n).map (fun i => (v >>> (8 * (n - 1 - i))) % 256)

/-- SHA-256 padding: append `0x80`, zero bytes to 56 mod 64, then the
bit length as 8 big-endian bytes. -/
def shaPad (msg : List Nat) : List Nat :=
  let zeros := (119 - msg.length % 64) % 64
  msg ++ [0x80] ++ List.replicate zeros 0 ++ beBytes 8 (8 * msg.length)

/-- Split a byte list into 64-byte chunks (structural recursion on a fuel
bound, so that the kernel can evaluate it; the fuel `l.length` always
suffices). -/
def chunks64Go : Nat → List Nat → List (List Nat)
  | 0, _ => []
  | _, [] => []
  | fuel + 1, l => l.take 64 :: chunks64Go fuel (l.drop 64)

/-- Split a byte list into 64-byte chunks. -/
def chunks64 (l : List Nat) : List (List Nat) :=
  chunks64Go l.length l

/-- Group 4 big-endian bytes into one 32-bit word. -/
def toWords : List Nat → List Nat
  | b0 :: b1 :: b2 :: b3 :: rest => (((b0 * 256 + b1) * 256 + b2) * 256 + b3) :: toWords rest
  | _ => []

/-- SHA-256 of a byte list, as the final state. -/
def sha256State (msg : List Nat) : ShaState :=
  (chunks64 (shaPad msg)).foldl (fun h c => processChunk h (toWords c)) shaInit

def hexDigit (n : Nat) : Char :=
  if n < 10 then Char.ofNat (48 + n) else Char.ofNat (87 + n)

/-- Lowercase hex rendering of a 32-bit word. -/
def hex8 (v : Nat) : List Char :=
  (List.range 8).map (fun i => hexDigit ((v >>> (4 * (7 - i))) % 16))

/-- `hashlib.sha256(bytes).hexdigest()`: 64 lowercase hex characters. -/
def sha256_hexdigest_bytes (msg : List Nat) : String :=
  let s := sha256State msg
  String.mk (hex8 s.a ++ hex8 s.b ++ hex8 s.c ++ hex8 s.d ++ hex8 s.e ++ hex8 s.f ++ hex8 s.g ++ hex8 s.h)

/-- UTF-8 encoding of one code point. -/
def utf8EncodeChar (c : Nat) : List Nat :=
  if c < 0x80 then [c]
  else if c < 0x800 then [0xc0 ||| (c >>> 6), 0x80 ||| (c &&& 0x3f)]
  else if c < 0x10000 then
    [0xe0 ||| (c >>> 12), 0x80 ||| ((c >>> 6) &&& 0x3f), 0x80 ||| (c &&& 0x3f)]
  else
    [0xf0 ||| (c >>> 18), 0x80 ||| ((c >>> 12) &&& 0x3f),
     0x80 ||| ((c >>> 6) &&& 0x3f), 0x80 ||| (c &&& 0x3f)]

/-- `str.encode("utf-8")` as a byte list. -/
def utf8Encode (s : String) : List Nat :=
  s.data.foldr (fun c acc => utf8EncodeChar c.toNat ++ acc) []

/-- `hashlib.sha256(s.encode("utf-8")).hexdigest()`. -/
def sha256_hexdigest (s : String) : String :=
  sha256_hexdigest_bytes (utf8Encode s)

/-- The fields of a raw order row read by `create_customer_identifier`:
`customer_id` after `pd.to_numeric(..., errors="coerce")` (`none` stands
for a missing or non-numeric value, which coerces to `NaN`), and
`order_row.get("billing", \x7b\x7d).get("email")` (`none` when the billing
dict or the email key is absent). -/
structure OrderRow where
  customer_id : Option Int
  billing_email : Option String
deriving DecidableEq, Repr

/-- Python `str.strip()`: drop leading and trailing whitespace (modelled
with the ASCII whitespace predicate). -/
def pyStrip (s : String) : String :=
  String.mk (((s.data.dropWhile Char.isWhitespace).reverse.dropWhile Char.isWhitespace).reverse)

/-- Python `str.lower()` (modelled by the ASCII character lowering). -/
def pyLower (s : String) : String :=
  String.mk (s.data.map Char.toLower)

/-- `create_customer_identifier` (transform.py lines 93 to 106): a
positive numeric `customer_id` yields its decimal string; otherwise a
billing email that is non-empty after stripping yields the SHA-256 hex
digest of the stripped, lowercased email; otherwise `None`. -/
def create_customer_identifier (row : OrderRow) : Option String :=
  match row.customer_id with
  | some n =>
    if 0 < n then some (toString n)
    else match row.billing_email with
      | some e =>
        if pyStrip e == "" then none else some (sha256_hexdigest (pyLower (pyStrip e)))
      | none => none
  | none =>
    match row.billing_email with
    | some e =>
      if pyStrip e == "" then none else some (sha256_hexdigest (pyLower (pyStrip e)))
    | none => none

/-! ## Theorems -/

/-- Helper for the pagination bound: against a server whose every response
is the non-empty page `[0]`, the fetcher issues one request per scripted
response, never stopping on its own. -/
theorem runFetch_replicate_ok_requests (n : Nat) :
    ∀ (page : Nat) (acc sleeps reqs : List Nat),
      (runFetch (List.replicate n (AttemptOutcome.ok [0])) page acc 0 sleeps reqs).requests.length
        = reqs.length + n := by
  induction n with
  | zero => intro page acc sleeps reqs; simp [runFetch]
  | succ n ih =>
    intro page acc sleeps reqs
    rw [List.replicate_succ]
    simp only [runFetch, List.isEmpty_cons, Bool.false_eq_true, if_false]
    rw [ih]
    simp only [List.length_append, List.length_cons, List.length_nil]
    omega

/-- C5 (code evaluation): `request_data` enforces no upper bound on the
number of page requests: for every candidate bound `B`, a server that
keeps answering non-empty pages makes the fetcher issue more than `B`
requests.  (The while-loop of extract.py lines 84 to 117 has no page
guard; the repository test
`test_request_data_stops_on_runaway_pages` expects one and fails.) -/
theorem C5_no_page_bound :
    ∀ B : Nat, B < (request_data (List.replicate (B + 1) (AttemptOutcome.ok [0]))).requests.length := by
  intro B
  unfold request_data
  rw [runFetch_replicate_ok_requests]
  omega

/-- C6: starting a page with a reset retry counter, six consecutive
transient failures produce exactly the sleeps `[2, 4, 8, 16, 32]` (one
before each of the five retries), six requests for the same page, and a
normal return of whatever records had been accumulated, without raising;
the rest of the script is never consulted. -/
theorem C6_backoff_schedule (rest : List AttemptOutcome) (page : Nat)
    (acc sleeps reqs : List Nat) :
    runFetch (List.replicate 6 AttemptOutcome.httpError ++ rest) page acc 0 sleeps reqs =
      ⟨.returned, acc, sleeps ++ [2, 4, 8, 16, 32], reqs ++ List.replicate 6 page⟩ := by
  simp [runFetch, max_retries, List.replicate]

/-- C4 (code evaluation): a first page with one record followed by a page
whose body does not parse as JSON makes `request_data` raise
(`result.json()` on extract.py line 109 sits outside the try block), so
the accumulated record is lost rather than returned. -/
theorem C4_malformed_page_raises :
    request_data [AttemptOutcome.ok [1], AttemptOutcome.malformed] =
      ⟨.raised, [], [], [1, 2]⟩ := by decide

/-- C7 (code evaluation): a rate-limited first attempt carrying the server
hint Retry-After = 7 is retried after the generic exponential backoff
sleep of 2 seconds; the hint is never honored and the 429 consumes the
generic retry budget. -/
theorem C7_rate_limit_hint_ignored :
    request_data [AttemptOutcome.rateLimited 7, AttemptOutcome.ok []] =
        ⟨.returned, [], [2], [1, 1]⟩ ∧
      7 ∉ (request_data [AttemptOutcome.rateLimited 7, AttemptOutcome.ok []]).sleeps := by
  decide

/-- C3 (code evaluation): on a machine whose local clock runs 60 minutes
ahead of UTC, a run that observes one record persists the checkpoint
`local now - 2 minutes`, which differs from `UTC now - 2 minutes`
(extract.py line 48 uses naive `datetime.now()`; the repository test
`test_main_uses_utc_z_timestamp_when_saving` expects UTC and fails). -/
theorem C3_checkpoint_not_utc :
    extract_main ⟨100, 60⟩ [AttemptOutcome.ok [1], AttemptOutcome.ok []] none =
        some ⟨[1], some 158, false⟩ ∧
      (158 : Int) ≠ 100 - 2 := by decide

/-- C8 counterexample: an order with `customer_id = -1` (which is `≤ 0`)
is classified as not a guest by the code, refuting the claim that
`is_guest` is true whenever `customer_id ≤ 0`. -/
theorem C8_negative_id_not_guest :
    is_guest (some (-1)) = false ∧ (-1 : Int) ≤ 0 := by decide

/-- C8 amended: `is_guest` is true exactly when `customer_id` is missing
or equal to `0`; any other value, negative values included, is classified
as a logged-in customer. -/
theorem C8_guest_iff_zero_or_missing (cid : Option Int) :
    is_guest cid = true ↔ (cid = none ∨ cid = some 0) := by
  cases cid with
  | none => simp [is_guest]
  | some n => simp [is_guest]

/-! ## Metadata: specification-side definitions and equivalence -/

/-- The truthy value an item contributes for key `k`: `some v` when the
item is a dict whose key is `k` and whose value is truthy, else `none`. -/
def entryVal (k : String) : MetaItem → Option String
  | .notDict => none
  | .entry k2 v => if k2 == some k && truthy v then v else none

/-- First truthy value for key `k` in list order. -/
def firstTruthy (k : String) : List MetaItem → Option String
  | [] => none
  | it :: rest => entryVal k it <|> firstTruthy k rest

/-- Last truthy value for key `k` in list order. -/
def lastTruthy (k : String) : List MetaItem → Option String
  | [] => none
  | it :: rest => lastTruthy k rest <|> entryVal k it

/-- The truthy referrer value an item contributes, under either the
explicit referrer key or the session referrer key. -/
def refEntryVal (it : MetaItem) : Option String :=
  entryVal refKeyName it <|> entryVal srefKeyName it

/-- First truthy value carried by either referrer key, in list order. -/
def firstTruthyRef : List MetaItem → Option String
  | [] => none
  | it :: rest => refEntryVal it <|> firstTruthyRef rest

/-- The extraction the claim describes, written from the claim text:
first-match-wins for every field, and `referrer_url` prefers the explicit
referrer key over the session referrer key regardless of list order. -/
def simplify_metadata_claimedFirstMatch : MetaValue → MetaResult
  | .notList => metaDefault
  | .items l =>
    ⟨(firstTruthy dtKeyName l).getD "Unknown",
     firstTruthy stKeyName l,
     firstTruthy usKeyName l,
     firstTruthy umKeyName l,
     firstTruthy refKeyName l <|> firstTruthy srefKeyName l⟩

/-- What the loop actually computes: last-truthy-match for the four
unconditionally overwritten fields, and for `referrer_url` the first
truthy value carried by either referrer key in list order. -/
def simplify_metadata_lastWins : MetaValue → MetaResult
  | .notList => metaDefault
  | .items l =>
    ⟨(lastTruthy dtKeyName l).getD "Unknown",
     lastTruthy stKeyName l,
     lastTruthy usKeyName l,
     lastTruthy umKeyName l,
     firstTruthyRef l⟩

/-- One step of the loop, described field by field. -/
theorem metaStep_fields (acc : MetaResult) (it : MetaItem) :
    metaStep acc it =
      ⟨(entryVal dtKeyName it).getD acc.device_type,
       entryVal stKeyName it <|> acc.attribution_source,
       entryVal usKeyName it <|> acc.campaign_source,
       entryVal umKeyName it <|> acc.campaign_medium,
       acc.referrer_url <|> refEntryVal it⟩ := by
  cases it with
  | notDict => simp [metaStep, entryVal, refEntryVal]
  | entry k v =>
    cases v with
    | none => simp [metaStep, entryVal, refEntryVal, truthy]
    | some s =>
      by_cases hs : s = ""
      · subst hs; simp [metaStep, entryVal, refEntryVal, truthy]
      · have ht : truthy (some s) = true := by simp [truthy, hs]
        cases k with
        | none => simp [metaStep, entryVal, refEntryVal, ht]
        | some ks =>
          by_cases h1 : ks = dtKeyName
          · subst h1
            simp [metaStep, entryVal, refEntryVal, ht, dtKeyName, stKeyName,
              usKeyName, umKeyName, refKeyName, srefKeyName]
          · by_cases h2 : ks = stKeyName
            · subst h2
              simp [metaStep, entryVal, refEntryVal, ht, dtKeyName, stKeyName,
                usKeyName, umKeyName, refKeyName, srefKeyName]
            · by_cases h3 : ks = usKeyName
              · subst h3
                simp [metaStep, entryVal, refEntryVal, ht, dtKeyName, stKeyName,
                  usKeyName, umKeyName, refKeyName, srefKeyName]
              · by_cases h4 : ks = umKeyName
                · subst h4
                  simp [metaStep, entryVal, refEntryVal, ht, dtKeyName, stKeyName,
                    usKeyName, umKeyName, refKeyName, srefKeyName]
                · by_cases h5 : ks = refKeyName
                  · subst h5
                    cases hr : acc.referrer_url with
                    | none =>
                      simp [metaStep, entryVal, refEntryVal, ht, hr, dtKeyName,
                        stKeyName, usKeyName, umKeyName, refKeyName, srefKeyName]
                    | some r0 =>
                      simp [metaStep, entryVal, refEntryVal, ht, hr, dtKeyName,
                        stKeyName, usKeyName, umKeyName, refKeyName, srefKeyName]
                      rw [← hr]
                  · by_cases h6 : ks = srefKeyName
                    · subst h6
                      cases hr : acc.referrer_url with
                      | none =>
                        simp [metaStep, entryVal, refEntryVal, ht, hr, dtKeyName,
                          stKeyName, usKeyName, umKeyName, refKeyName, srefKeyName]
                      | some r0 =>
                        simp [metaStep, entryVal, refEntryVal, ht, hr, dtKeyName,
                          stKeyName, usKeyName, umKeyName, refKeyName, srefKeyName]
                        rw [← hr]
                    · simp [metaStep, entryVal, refEntryVal, ht, h1, h2, h3, h4, h5, h6]

/-- `Option.getD` after a fallback chain. -/
theorem optGetD_orElse (a b : Option String) (d : String) :
    a.getD (b.getD d) = (a <|> b).getD d := by
  cases a <;> simp

/-- Associativity of the `Option` fallback. -/
theorem optOrElse_assoc (a b c : Option String) :
    (a <|> (b <|> c)) = ((a <|> b) <|> c) := by
  cases a <;> simp

/-- The loop as a whole, from an arbitrary accumulated `result`. -/
theorem foldl_metaStep_eq (l : List MetaItem) : ∀ acc : MetaResult,
    l.foldl metaStep acc =
      ⟨(lastTruthy dtKeyName l).getD acc.device_type,
       lastTruthy stKeyName l <|> acc.attribution_source,
       lastTruthy usKeyName l <|> acc.campaign_source,
       lastTruthy umKeyName l <|> acc.campaign_medium,
       acc.referrer_url <|> firstTruthyRef l⟩ := by
  induction l with
  | nil =>
    intro acc
    simp [lastTruthy, firstTruthyRef]
  | cons it rest ih =>
    intro acc
    rw [List.foldl_cons, ih (metaStep acc it), metaStep_fields]
    simp only [lastTruthy, firstTruthyRef, MetaResult.mk.injEq]
    exact ⟨optGetD_orElse _ _ _, optOrElse_assoc _ _ _, optOrElse_assoc _ _ _,
      optOrElse_assoc _ _ _, (optOrElse_assoc _ _ _).symm⟩

/-- If no item contributes a truthy value for key `k`, the last truthy
value is absent. -/
theorem lastTruthy_eq_none (k : String) (l : List MetaItem)
    (h : l.any (fun it => (entryVal k it).isSome) = false) :
    lastTruthy k l = none := by
  induction l with
  | nil => rfl
  | cons it rest ih =>
    rw [List.any_cons, Bool.or_eq_false_iff] at h
    rw [lastTruthy, ih h.2]
    cases he : entryVal k it with
    | none => rfl
    | some v =>
      rw [he] at h
      simp at h

/-- If no item contributes a truthy value under either referrer key, the
first referrer value is absent. -/
theorem firstTruthyRef_eq_none (l : List MetaItem)
    (h1 : l.any (fun it => (entryVal refKeyName it).isSome) = false)
    (h2 : l.any (fun it => (entryVal srefKeyName it).isSome) = false) :
    firstTruthyRef l = none := by
  induction l with
  | nil => rfl
  | cons it rest ih =>
    rw [List.any_cons, Bool.or_eq_false_iff] at h1 h2
    rw [firstTruthyRef, ih h1.2 h2.2, refEntryVal]
    cases he1 : entryVal refKeyName it with
    | some v => rw [he1] at h1; simp at h1
    | none =>
      cases he2 : entryVal srefKeyName it with
      | some v => rw [he2] at h2; simp at h2
      | none => rfl

/-- Whether the `meta_data` value holds at least one dict entry with the
key `k` and a truthy value. -/
def hasTruthyKey (md : MetaValue) (k : String) : Bool :=
  match md with
  | .notList => false
  | .items l => l.any (fun it => (entryVal k it).isSome)

/-- C10: for every order whose `meta_data` contains no entry with key
`_wc_order_attribution_device_type` and a truthy value (including a
`meta_data` that is absent or not a list), `simplify_metadata` yields
`device_type = "Unknown"` rather than null, while each of the other four
attribution fields is null whenever no entry carries its key (for
`referrer_url`: neither referrer key) with a truthy value. -/
theorem C10_attribution_defaults (md : MetaValue) :
    (hasTruthyKey md dtKeyName = false → (simplify_metadata md).device_type = "Unknown") ∧
    (hasTruthyKey md stKeyName = false → (simplify_metadata md).attribution_source = none) ∧
    (hasTruthyKey md usKeyName = false → (simplify_metadata md).campaign_source = none) ∧
    (hasTruthyKey md umKeyName = false → (simplify_metadata md).campaign_medium = none) ∧
    (hasTruthyKey md refKeyName = false → hasTruthyKey md srefKeyName = false →
      (simplify_metadata md).referrer_url = none) := by
  cases md with
  | notList =>
    refine ⟨fun _ => rfl, fun _ => rfl, fun _ => rfl, fun _ => rfl, fun _ _ => rfl⟩
  | items l =>
    simp only [hasTruthyKey, simplify_metadata]
    rw [foldl_metaStep_eq]
    refine ⟨fun h => ?_, fun h => ?_, fun h => ?_, fun h => ?_, fun h1 h2 => ?_⟩
    · simp [lastTruthy_eq_none _ _ h, metaDefault]
    · simp [lastTruthy_eq_none _ _ h, metaDefault]
    · simp [lastTruthy_eq_none _ _ h, metaDefault]
    · simp [lastTruthy_eq_none _ _ h, metaDefault]
    · simp [firstTruthyRef_eq_none _ h1 h2, metaDefault]

/-- C10 witness: a metadata list holding only a falsy device entry, an
unrelated key, and a non-dict element keeps the defaults: device type
Unknown, every other attribution field null. -/
theorem C10_attribution_defaults_witness :
    (simplify_metadata (.items [.entry (some dtKeyName) (some ""),
        .entry (some "other_key") (some "x"), .notDict])).device_type = "Unknown" ∧
    (simplify_metadata (.items [.entry (some dtKeyName) (some ""),
        .entry (some "other_key") (some "x"), .notDict])).attribution_source = none ∧
    (simplify_metadata (.items [.entry (some dtKeyName) (some ""),
        .entry (some "other_key") (some "x"), .notDict])).campaign_source = none ∧
    (simplify_metadata (.items [.entry (some dtKeyName) (some ""),
        .entry (some "other_key") (some "x"), .notDict])).campaign_medium = none ∧
    (simplify_metadata (.items [.entry (some dtKeyName) (some ""),
        .entry (some "other_key") (some "x"), .notDict])).referrer_url = none := by
  have h := C10_attribution_defaults (.items [.entry (some dtKeyName) (some ""),
    .entry (some "other_key") (some "x"), .notDict])
  exact ⟨h.1 (by decide), h.2.1 (by decide), h.2.2.1 (by decide), h.2.2.2.1 (by decide),
    h.2.2.2.2 (by decide) (by decide)⟩

/-- Metadata list used to refute the claimed extraction order: a truthy
session referrer first, then a device entry, then a truthy explicit
referrer, then a second device entry. -/
def mdC9 : MetaValue :=
  .items [.entry (some srefKeyName) (some "S"), .entry (some dtKeyName) (some "A"),
          .entry (some refKeyName) (some "R"), .entry (some dtKeyName) (some "B")]

/-- C9 counterexample: on `mdC9` the code keeps the LAST device entry
(`"B"`, not the first-match `"A"`) and the FIRST referrer value in list
order (the session referrer `"S"`, not the explicit referrer `"R"`), so
the claimed first-match-wins extraction with explicit-referrer preference
is refuted. -/
theorem C9_first_match_refuted :
    simplify_metadata mdC9 = ⟨"B", none, none, none, some "S"⟩ ∧
    simplify_metadata_claimedFirstMatch mdC9 = ⟨"A", none, none, none, some "R"⟩ ∧
    simplify_metadata mdC9 ≠ simplify_metadata_claimedFirstMatch mdC9 := by
  decide

/-- C9 amended: the attribution fields are extracted via the fixed key
mapping with LAST-truthy-match-wins for device type, source type, UTM
source and UTM medium, while `referrer_url` takes the FIRST truthy value
carried by either the explicit referrer key or the session referrer key
in list order (no preference of the explicit key over the session key). -/
theorem C9_last_match_and_first_referrer (md : MetaValue) :
    simplify_metadata md = simplify_metadata_lastWins md := by
  cases md with
  | notList => rfl
  | items l =>
    simp only [simplify_metadata, simplify_metadata_lastWins]
    rw [foldl_metaStep_eq]
    simp [metaDefault]

/-- Lowering a string yields the empty string only for the empty
string. -/
theorem pyLower_eq_empty_iff (s : String) : pyLower s = "" ↔ s = "" := by
  constructor
  · intro h
    have hd : (pyLower s).data = ("" : String).data := by rw [h]
    simp only [pyLower] at hd
    have : s.data = [] := by
      have := hd
      simpa using this
    cases s
    simp_all
  · intro h
    subst h
    rfl

/-- C2: the derived customer identifier equals the decimal string of a
positive `customer_id`; otherwise, for a billing email that is non-empty
after stripping, it equals the SHA-256 hex digest of the stripped,
lowercased email; otherwise it is absent; and two billing emails that
agree after stripping and lowercasing always yield the identical
identifier. -/
theorem C2_customer_identifier :
    (∀ (row : OrderRow) (n : Int), row.customer_id = some n → 0 < n →
      create_customer_identifier row = some (toString n)) ∧
    (∀ (row : OrderRow) (e : String),
      (∀ n : Int, row.customer_id = some n → n ≤ 0) →
      row.billing_email = some e → pyStrip e ≠ "" →
      create_customer_identifier row = some (sha256_hexdigest (pyLower (pyStrip e)))) ∧
    (∀ row : OrderRow,
      (∀ n : Int, row.customer_id = some n → n ≤ 0) →
      (∀ e : String, row.billing_email = some e → pyStrip e = "") →
      create_customer_identifier row = none) ∧
    (∀ (cid : Option Int) (e1 e2 : String),
      pyLower (pyStrip e1) = pyLower (pyStrip e2) →
      create_customer_identifier ⟨cid, some e1⟩ = create_customer_identifier ⟨cid, some e2⟩) := by
  refine ⟨?_, ?_, ?_, ?_⟩
  · rintro ⟨cid, be⟩ n h hpos
    cases h
    simp [create_customer_identifier, hpos]
  · rintro ⟨cid, be⟩ e hle h he
    cases h
    cases cid with
    | none => simp [create_customer_identifier, he]
    | some n =>
      have hn := hle n rfl
      have hnp : ¬ (0 < n) := by omega
      simp [create_customer_identifier, hnp, he]
  · rintro ⟨cid, be⟩ hle hee
    cases be with
    | none =>
      cases cid with
      | none => simp [create_customer_identifier]
      | some n =>
        have hn := hle n rfl
        have hnp : ¬ (0 < n) := by omega
        simp [create_customer_identifier, hnp]
    | some e =>
      have he := hee e rfl
      cases cid with
      | none => simp [create_customer_identifier, he]
      | some n =>
        have hn := hle n rfl
        have hnp : ¬ (0 < n) := by omega
        simp [create_customer_identifier, hnp, he]
  · intro cid e1 e2 h
    by_cases h1 : pyStrip e1 = ""
    · have h2 : pyStrip e2 = "" := by
        have hl2 : pyLower (pyStrip e2) = "" := by
          rw [← h, h1]
          rfl
        exact (pyLower_eq_empty_iff _).mp hl2
      cases cid with
      | none => simp [create_customer_identifier, h1, h2]
      | some n =>
        by_cases hp : 0 < n <;> simp [create_customer_identifier, hp, h1, h2]
    · have h2 : pyStrip e2 ≠ "" := by
        intro hc
        apply h1
        have hl1 : pyLower (pyStrip e1) = "" := by
          rw [h, hc]
          rfl
        exact (pyLower_eq_empty_iff _).mp hl1
      cases cid with
      | none => simp [create_customer_identifier, h1, h2, h]
      | some n =>
        by_cases hp : 0 < n <;> simp [create_customer_identifier, hp, h1, h2, h]

/-- C2 witness: a positive `customer_id = 7` yields the identifier `"7"`
whatever the email, and the guest emails `" A@B.com "` and `"a@b.com"`,
differing only in case and surrounding whitespace, yield the identical
identifier. -/
theorem C2_customer_identifier_witness :
    create_customer_identifier ⟨some 7, some "x@y.z"⟩ = some "7" ∧
    create_customer_identifier ⟨some 0, some " A@B.com "⟩ =
      create_customer_identifier ⟨some 0, some "a@b.com"⟩ := by
  refine ⟨C2_customer_identifier.1 ⟨some 7, some "x@y.z"⟩ 7 rfl (by decide),
    C2_customer_identifier.2.2.2 (some 0) " A@B.com " "a@b.com" (by decide)⟩

set_option maxRecDepth 100000

/-- The embedded SHA-256 agrees with the FIPS 180-4 test vector for
`"abc"` and with the digest of the lowercased guest email from the
end-to-end example of the specification. -/
theorem sha256_known_vectors :
    sha256_hexdigest "abc" =
        "ba7816bf8f01cfea414140de5dae2223b00361a396177a9cb410ff61f20015ad" ∧
      sha256_hexdigest "a@b.com" =
        "fb98d44ad7501a959f3f4f4a3f004fe2d9e581ea6207e218c4b02c08a4d75adf" := by
  constructor <;> decide

/-! ## Deduplication lemmas and the dedup theorem -/

/-- Removing the rows of a different id does not change the count of id
`i`. -/
theorem countP_filter_ne (i j : Int) (hij : i ≠ j) (l : List RawOrder) :
    (l.filter (fun s => s.id != j)).countP (fun s => s.id == i) =
      l.countP (fun s => s.id == i) := by
  rw [List.countP_filter]
  apply List.countP_congr
  intro s _
  by_cases h : s.id = i
  · simp [h, hij]
  · simp [h]

/-- `find?` over a cons, specialised to the id predicate. -/
theorem find?_id_cons (i : Int) (r : RawOrder) (rs : List RawOrder) :
    (r :: rs).find? (fun s => s.id == i) =
      if r.id = i then some r else rs.find? (fun s => s.id == i) := by
  simp only [List.find?]
  by_cases h : r.id = i
  · simp [h]
  · have hb : (r.id == i) = false := by simp [h]
    simp [hb, h]

/-- `countP` over a cons, specialised to the id predicate. -/
theorem countP_id_cons (i : Int) (r : RawOrder) (rs : List RawOrder) :
    (r :: rs).countP (fun s => s.id == i) =
      rs.countP (fun s => s.id == i) + (if r.id = i then 1 else 0) := by
  by_cases h : r.id = i <;> simp [List.countP_cons, h]

/-- Removing the rows of a different id does not change the first row of
id `i`. -/
theorem find?_filter_ne (i j : Int) (hij : i ≠ j) (l : List RawOrder) :
    (l.filter (fun s => s.id != j)).find? (fun s => s.id == i) =
      l.find? (fun s => s.id == i) := by
  induction l with
  | nil => rfl
  | cons r rs ih =>
    rw [find?_id_cons]
    by_cases hq : r.id = j
    · have hpf : ¬ r.id = i := fun hc => hij (hq ▸ hc).symm
      rw [List.filter_cons_of_neg (by simp [hq]), ih, if_neg hpf]
    · rw [List.filter_cons_of_pos (by simp [hq]), find?_id_cons, ih]

/-- After dropping duplicates, every id present in the input appears
exactly once. -/
theorem countP_dedupKeepFirst (i : Int) (l : List RawOrder) :
    (dedupKeepFirst l).countP (fun s => s.id == i) =
      min (l.countP (fun s => s.id == i)) 1 := by
  induction l using dedupKeepFirst.induct with
  | case1 => simp [dedupKeepFirst]
  | case2 r rs ih =>
    rw [dedupKeepFirst, countP_id_cons, countP_id_cons, ih]
    by_cases hp : r.id = i
    · have h0 : (rs.filter (fun s => s.id != r.id)).countP (fun s => s.id == i) = 0 := by
        rw [List.countP_eq_zero]
        intro a ha
        have hne := (List.mem_filter.mp ha).2
        simp only [bne_iff_ne, ne_eq, decide_eq_true_eq] at hne
        simp [hp ▸ hne]
      rw [h0, if_pos hp]
      omega
    · rw [countP_filter_ne i r.id (fun hc => hp hc.symm), if_neg hp]
      omega

/-- Dropping duplicates keeps, for every id, exactly the first row
carrying it. -/
theorem find?_dedupKeepFirst (i : Int) (l : List RawOrder) :
    (dedupKeepFirst l).find? (fun s => s.id == i) = l.find? (fun s => s.id == i) := by
  induction l using dedupKeepFirst.induct with
  | case1 => simp [dedupKeepFirst]
  | case2 r rs ih =>
    rw [dedupKeepFirst, find?_id_cons, find?_id_cons, ih]
    by_cases hp : r.id = i
    · rw [if_pos hp, if_pos hp]
    · rw [if_neg hp, if_neg hp, find?_filter_ne i r.id (fun hc => hp hc.symm)]

/-- Dropping duplicates yields rows of the input. -/
theorem mem_of_mem_dedupKeepFirst : ∀ {l : List RawOrder} {r : RawOrder},
    r ∈ dedupKeepFirst l → r ∈ l := by
  intro l
  induction l using dedupKeepFirst.induct with
  | case1 => intro r h; rw [dedupKeepFirst] at h; cases h
  | case2 r rs ih =>
    intro s hs
    rw [dedupKeepFirst] at hs
    rcases List.mem_cons.mp hs with h | h
    · exact h ▸ List.mem_cons_self _ _
    · exact List.mem_cons_of_mem _ (List.mem_of_mem_filter (ih h))

/-- In a list sorted by `(id ascending, date_modified descending)`, the
first row of id `i` carries the greatest modification date among the rows
of id `i`. -/
theorem sorted_find?_max (i : Int) :
    ∀ l : List RawOrder, List.Sorted orderBefore l →
    ∀ r, l.find? (fun s => s.id == i) = some r →
    ∀ s ∈ l, s.id = i → dKey s.date_modified ≤ dKey r.date_modified := by
  intro l
  induction l with
  | nil => intro _ r hr; simp [List.find?] at hr
  | cons x xs ih =>
    intro hsorted r hr s hs hsi
    rw [List.sorted_cons] at hsorted
    rw [find?_id_cons] at hr
    by_cases hx : x.id = i
    · rw [if_pos hx] at hr
      cases hr
      rcases List.mem_cons.mp hs with h | h
      · subst h; exact le_refl _
      · rcases hsorted.1 s h with h1 | ⟨_, h3⟩
        · exfalso
          rw [hx, hsi] at h1
          exact lt_irrefl _ h1
        · exact h3
    · rw [if_neg hx] at hr
      rcases List.mem_cons.mp hs with h | h
      · exact absurd (h ▸ hsi) hx
      · exact ih hsorted.2 r hr s h hsi

/-- C1: for every batch in which id `i` occurs, `normalize_dedup` keeps
exactly one row of id `i`; that row comes from the batch and carries the
greatest `date_modified` among the rows of id `i`; in particular, when the
batch holds exactly two rows of id `i` with dates T1 < T2, the surviving
row is the T2 version. -/
theorem C1_dedup_unique_most_recent (raws : List RawOrder) (i : Int)
    (h : ∃ x ∈ raws, x.id = i) :
    ((normalize_dedup raws).countP (fun s => s.id == i) = 1) ∧
    ∃ r ∈ normalize_dedup raws, r ∈ raws ∧ r.id = i ∧
      (∀ s ∈ raws, s.id = i → dKey s.date_modified ≤ dKey r.date_modified) ∧
      (∀ (r1 r2 : RawOrder) (t1 t2 : Int),
        raws.filter (fun s => s.id == i) = [r1, r2] →
        r1.date_modified = some t1 → r2.date_modified = some t2 → t1 < t2 → r = r2) := by
  have hperm : List.Perm (sortOrders raws) raws := List.perm_insertionSort _ _
  have hsorted : List.Sorted orderBefore (sortOrders raws) := List.sorted_insertionSort _ _
  have hcount : (sortOrders raws).countP (fun s => s.id == i) =
      raws.countP (fun s => s.id == i) := hperm.countP_eq _
  have hpos : 0 < (sortOrders raws).countP (fun s => s.id == i) := by
    rw [hcount, List.countP_pos_iff]
    obtain ⟨x, hx, hxi⟩ := h
    exact ⟨x, hx, by simp [hxi]⟩
  have hnd : normalize_dedup raws = dedupKeepFirst (sortOrders raws) := rfl
  constructor
  · rw [hnd, countP_dedupKeepFirst]
    omega
  · have hfind : ∃ r, (sortOrders raws).find? (fun s => s.id == i) = some r := by
      cases hf : (sortOrders raws).find? (fun s => s.id == i) with
      | some r => exact ⟨r, rfl⟩
      | none =>
        exfalso
        rw [List.find?_eq_none] at hf
        rw [List.countP_pos_iff] at hpos
        obtain ⟨a, ha, hpa⟩ := hpos
        exact hf a ha hpa
    obtain ⟨r, hr⟩ := hfind
    have hrdedup : r ∈ normalize_dedup raws := by
      apply List.mem_of_find?_eq_some
      rw [hnd, find?_dedupKeepFirst, hr]
    have hri : r.id = i := by
      have := List.find?_some hr
      simpa using this
    have hrraws : r ∈ raws := hperm.mem_iff.mp (List.mem_of_find?_eq_some hr)
    have hmax : ∀ s ∈ raws, s.id = i → dKey s.date_modified ≤ dKey r.date_modified := by
      intro s hs hsi
      exact sorted_find?_max i (sortOrders raws) hsorted r hr s (hperm.mem_iff.mpr hs) hsi
    refine ⟨r, hrdedup, hrraws, hri, hmax, ?_⟩
    intro r1 r2 t1 t2 hfilter h1 h2 hlt
    have hrf : r ∈ raws.filter (fun s => s.id == i) :=
      List.mem_filter.mpr ⟨hrraws, by simp [hri]⟩
    rw [hfilter] at hrf
    have hr2 : r2 ∈ raws.filter (fun s => s.id == i) := by rw [hfilter]; simp
    have hr2raws : r2 ∈ raws := (List.mem_filter.mp hr2).1
    have hr2i : r2.id = i := by
      have := (List.mem_filter.mp hr2).2
      simpa using this
    have hle2 : dKey r2.date_modified ≤ dKey r.date_modified := hmax r2 hr2raws hr2i
    rcases List.mem_cons.mp hrf with he | he
    · exfalso
      rw [he, h1, h2] at hle2
      have : t2 ≤ t1 := by
        simpa [dKey] using hle2
      omega
    · simpa using he

/-- C1 witness: a concrete batch holding two versions of order 5, with
modification dates 1 < 2, keeps exactly one row of id 5: the one with
date 2 and the payload of the later version. -/
theorem C1_dedup_unique_most_recent_witness :
    ((normalize_dedup [⟨5, some 1, 10⟩, ⟨5, some 2, 20⟩]).countP (fun s => s.id == 5) = 1) ∧
    ∃ r ∈ normalize_dedup [⟨5, some 1, 10⟩, ⟨5, some 2, 20⟩],
      r ∈ [(⟨5, some 1, 10⟩ : RawOrder), ⟨5, some 2, 20⟩] ∧ r.id = 5 ∧
      (∀ s ∈ [(⟨5, some 1, 10⟩ : RawOrder), ⟨5, some 2, 20⟩], s.id = 5 →
        dKey s.date_modified ≤ dKey r.date_modified) ∧
      (∀ (r1 r2 : RawOrder) (t1 t2 : Int),
        ([(⟨5, some 1, 10⟩ : RawOrder), ⟨5, some 2, 20⟩]).filter (fun s => s.id == 5) = [r1, r2] →
        r1.date_modified = some t1 → r2.date_modified = some t2 → t1 < t2 → r = r2) :=
  C1_dedup_unique_most_recent [⟨5, some 1, 10⟩, ⟨5, some 2, 20⟩] 5
    ⟨⟨5, some 1, 10⟩, List.mem_cons_self _ _, rfl⟩
